import Mathlib

/-!
Shallow embedding of the range-derivation core of the `editable` rich-text
engine: the node model, the `createNode` constructor, the `Range` object and
the function `createRangefromOp` from
`src/packages/selection/src/utils/op.ts`, together with proofs about them.

The node model (`@editablejs/model`), the `Range` class and the logger
(`@editablejs/utils`) are not part of the given sources; they are modelled
from the specification (sections 3, 4.1 and 7) where indicated.
-/

namespace Editable

/-- Modelled from the spec: the transient IME Composition buffer attached to a
Text node — the not-yet-committed composed string and the offset within the
Text node where it is anchored (spec section 3). -/
structure Composition where
  text : String
  offset : Nat
  deriving Repr, DecidableEq

/-- Modelled from the spec: the node model of `@editablejs/model` (not under
the given sources) — a closed tagged variant over Element (key, type tag,
ordered children) and Text (key, string payload, optional Composition)
(spec sections 3 and 4.1). -/
inductive Node where
  | text (key : Nat) (content : String) (composition : Option Composition)
  | element (key : Nat) (tag : String) (children : List Node)
  deriving Repr

/-- `node.getKey()` of the node model. -/
def Node.getKey : Node → Nat
  | .text k _ _ => k
  | .element k _ _ => k

/-- `Text.isText(node)` of the node model. -/
def Node.isText : Node → Bool
  | .text _ _ _ => true
  | .element _ _ _ => false

/-- `Element.isElement(node)` of the node model. -/
def Node.isElement : Node → Bool
  | .text _ _ _ => false
  | .element _ _ _ => true

/-- `node.getText()` of a Text node (empty for an Element, on which the
source never calls it). -/
def Node.getText : Node → String
  | .text _ s _ => s
  | .element _ _ _ => ""

/-- `node.getComposition()` of a Text node. -/
def Node.getComposition : Node → Option Composition
  | .text _ _ c => c
  | .element _ _ _ => none

/-- The last entry of a list, `none` when the list is empty. -/
def listLast {α : Type} : List α → Option α
  | [] => none
  | [a] => some a
  | _ :: b :: rest => listLast (b :: rest)

theorem listLast_mem {α : Type} : ∀ {l : List α} {a : α}, listLast l = some a → a ∈ l
  | [a], b, h => by
    simp only [listLast, Option.some.injEq] at h
    simp [h]
  | a :: b :: rest, c, h => by
    have ih := listLast_mem (l := b :: rest) (a := c)
    simp only [listLast] at h
    simp [ih h]

/-- `element.last()` of the node model: the last child, nullable if empty. -/
def Node.last : Node → Option Node
  | .text _ _ _ => none
  | .element _ _ children => listLast children

/-- `element.getChildrenSize()` of the node model. -/
def Node.getChildrenSize : Node → Nat
  | .text _ _ _ => 0
  | .element _ _ children => children.length

/-- Modelled from the spec: the serializable value record consumed by
`createNode` — `{ text: string, ... }` for a Text leaf or
`{ type: string, children: [...] }` for an Element (spec section 6);
`invalid` stands for a record from which `createNode` yields nothing
insertable (spec section 4.3, InsertNode step 2). -/
inductive Value where
  | text (s : String)
  | element (tag : String) (children : List Value)
  | invalid
  deriving Repr

mutual

/-- Modelled from the spec: `createNode(value)` of the node model — constructs
a new Node subtree from a serializable value record, Text or Element depending
on the value's shape, assigning each created node a fresh process-unique Key
(spec sections 3, 4.1 and 6). Keys are drawn from a counter `nextKey` threaded
through the construction; the updated counter is returned alongside. -/
def createNode : Value → Nat → Option Node × Nat
  | .text s, nextKey => (some (.text nextKey s none), nextKey + 1)
  | .element tag children, nextKey =>
    let result := createNodes children (nextKey + 1)
    (some (.element nextKey tag result.1), result.2)
  | .invalid, nextKey => (none, nextKey)

/-- Child-list construction for `createNode`: values yielding nothing are
skipped, the key counter is threaded left to right. -/
def createNodes : List Value → Nat → List Node × Nat
  | [], nextKey => ([], nextKey)
  | v :: vs, nextKey =>
    match createNode v nextKey with
    | (some n, k) =>
      let rest := createNodes vs k
      (n :: rest.1, rest.2)
    | (none, k) =>
      createNodes vs k

end

/-- Modelled from the spec: the `Range` object of `../range` — an
anchor/focus pair of (key, offset); both endpoints equal denotes a collapsed
caret (spec sections 3 and 6). -/
structure Range where
  anchorKey : Nat
  anchorOffset : Nat
  focusKey : Nat
  focusOffset : Nat
  deriving Repr, DecidableEq

/-- Modelled from the spec: the two-argument `Range` constructor
`new Range(key, offset)` — both endpoints equal, a collapsed caret. -/
def Range.collapsed (key offset : Nat) : Range :=
  ⟨key, offset, key, offset⟩

/-- The operation kinds of the Operation Log, with the fields
`createRangefromOp` reads from each: the (possibly absent at runtime) target
node reference, `op.offset`, and `op.value` where used. -/
inductive Op where
  | updateFormat (node : Option Node) (offset : Nat)
  | updateData (node : Option Node) (offset : Nat)
  | insertText (node : Option Node) (offset : Nat) (value : String)
  | deleteText (node : Option Node) (offset : Nat)
  | insertNode (node : Option Node) (offset : Nat) (value : Value)

/-- The target node reference carried alongside the operation
(`op.node`; typed non-null in the source, but absent at runtime when the key
is unresolvable). -/
def Op.node : Op → Option Node
  | .updateFormat n _ => n
  | .updateData n _ => n
  | .insertText n _ _ => n
  | .deleteText n _ => n
  | .insertNode n _ _ => n

/-- `op.offset`. -/
def Op.offset : Op → Nat
  | .updateFormat _ o => o
  | .updateData _ o => o
  | .insertText _ o _ => o
  | .deleteText _ o => o
  | .insertNode _ o _ => o

/-- Failures `createRangefromOp` can raise: the runtime `TypeError` from
dereferencing an absent node (`node.getKey()` on `undefined`), and the
`NodeNotFound` failure of `Log.nodeNotFound(key)` — the latter modelled from
the spec (section 7) as fatal and tagged with the offending key. -/
inductive Err where
  | typeError
  | nodeNotFound (key : Nat)
  deriving Repr, DecidableEq

/-- The `while(child && Element.isElement(child))` drill-down loop of
`createRangefromOp` (op.ts lines 39-49), with the mutable `key`/`offset`
variables passed as accumulators. On each iteration: take `child.last()`;
if it does not exist, break (line 41) — falling through to
`return new Range(key, offset)` (line 53) with the accumulators unchanged;
otherwise set `key`/`offset` to the current element's key and children size
(lines 42-43); if the last child is a Text, return a collapsed range at the
end of its text (lines 44-45); otherwise descend into it (line 47). A Text
argument fails the loop condition, falling through to line 53. -/
def drillDown (key offset : Nat) : Node → Range
  | .text _ _ _ => Range.collapsed key offset
  | .element k _ children =>
    match h : listLast children with
    | none => Range.collapsed key offset
    | some (.text lk ls _) => Range.collapsed lk ls.length
    | some (.element lk ltag lch) => drillDown k children.length (.element lk ltag lch)
termination_by n => sizeOf n
decreasing_by
  have hm := listLast_mem h
  have hs := List.sizeOf_lt_of_mem hm
  simp only [Node.element.sizeOf_spec] at hs ⊢
  omega

/-- The Text node reached by the last-child chain from a node: a Text node is
itself the end of its chain; for an Element, follow `last()` repeatedly; the
chain ends in no Text node when some Element on it has no children. Used to
state which Text node the drill-down of `createRangefromOp` lands on. -/
def lastTextOfChain : Node → Option Node
  | .text k s c => some (.text k s c)
  | .element _ _ children =>
    match h : listLast children with
    | none => none
    | some l => lastTextOfChain l
termination_by n => sizeOf n
decreasing_by
  have hm := listLast_mem h
  have hs := List.sizeOf_lt_of_mem hm
  simp only [Node.element.sizeOf_spec]
  omega

/-- The Elements the drill-down loop of `createRangefromOp` visits, in
visiting order: the node itself, then, as long as the current Element's last
child is an Element, that last child. The loop leaves the chain's final
Element either by returning (its last child is a Text) or by breaking (it has
no last child). -/
def drillChain : Node → List Node
  | .text _ _ _ => []
  | .element k tag children =>
    .element k tag children ::
      (match h : listLast children with
       | none => []
       | some (.text _ _ _) => []
       | some (.element lk ltag lch) => drillChain (.element lk ltag lch))
termination_by n => sizeOf n
decreasing_by
  have hm := listLast_mem h
  have hs := List.sizeOf_lt_of_mem hm
  simp only [Node.element.sizeOf_spec] at hs ⊢
  omega

/-- The number of loop iterations (nodes visited) the drill-down loop of
`createRangefromOp` performs on a node: zero for a Text node (the loop
condition fails at once), and for an Element one iteration plus the
iterations spent inside its last child when that child is an Element. -/
def drillDownVisits : Node → Nat
  | .text _ _ _ => 0
  | .element _ _ children =>
    match h : listLast children with
    | none => 1
    | some (.text _ _ _) => 1
    | some (.element lk ltag lch) => 1 + drillDownVisits (.element lk ltag lch)
termination_by n => sizeOf n
decreasing_by
  have hm := listLast_mem h
  have hs := List.sizeOf_lt_of_mem hm
  simp only [Node.element.sizeOf_spec] at hs ⊢
  omega

mutual

/-- Depth of a node subtree, in edges: a Text leaf or a childless Element has
depth 0; an Element's depth is one more than the greatest depth among its
children. -/
def Node.depth : Node → Nat
  | .text _ _ _ => 0
  | .element _ _ children => depthList children

/-- Greatest child depth plus one over a list of nodes, 0 for the empty
list. -/
def depthList : List Node → Nat
  | [] => 0
  | n :: rest => max (Node.depth n + 1) (depthList rest)

end

/-- `createRangefromOp` of op.ts, after the target node reference has been
resolved (op.ts lines 8-55 with `node` present, so the `if(!node)` guard of
line 29 is skipped). `key` is `node.getKey()` (line 8), `offset` is
`op.offset` (line 9). Returns `none` exactly where the source returns
`undefined` (line 21). -/
def createRangefromOpAux (nextKey : Nat) (node : Node) (op : Op) : Option Range :=
  let key := node.getKey
  let offset := op.offset
  match op with
  | .updateFormat _ _ =>
    match node with
    | .text _ s _ => some ⟨key, 0, key, s.length⟩
    | .element _ _ _ => some (Range.collapsed key offset)
  | .updateData _ _ =>
    match node with
    | .text _ _ (some comp) => some (Range.collapsed key (comp.offset + comp.text.length))
    | .text _ _ none => none
    | .element _ _ _ => some (Range.collapsed key offset)
  | .insertText _ _ value => some (Range.collapsed key (offset + value.length))
  | .deleteText _ _ => some (Range.collapsed key offset)
  | .insertNode _ _ value =>
    match node with
    | .element _ _ _ =>
      match (createNode value nextKey).1 with
      | some child =>
        match child with
        | .text ck cs _ => some (Range.collapsed ck cs.length)
        | .element ck ctag cch => some (drillDown key offset (.element ck ctag cch))
      | none => some (Range.collapsed key offset)
    | .text _ _ _ => some (Range.collapsed key offset)

/-- `createRangefromOp(op)` of op.ts at JavaScript runtime semantics: line 8
evaluates `node.getKey()`, which on an absent node reference raises a
`TypeError` before the switch is reached (so the `if(!node)
Log.nodeNotFound(key)` guard of line 29 can never fire). `nextKey` is the
key-generation counter consumed by `createNode`. -/
def createRangefromOp (nextKey : Nat) (op : Op) : Except Err (Option Range) :=
  match op.node with
  | none => .error .typeError
  | some node => .ok (createRangefromOpAux nextKey node op)

/-! Helper lemmas about the drill-down loop. -/

theorem depth_succ_le_of_mem {l : List Node} {n : Node} (h : n ∈ l) :
    Node.depth n + 1 ≤ depthList l := by
  induction l with
  | nil => cases h
  | cons a rest ih =>
    simp only [depthList]
    rcases List.mem_cons.mp h with h1 | h2
    · subst h1; exact le_max_left _ _
    · exact le_trans (ih h2) (le_max_right _ _)

theorem drillDown_element_none (key offset k : Nat) (tag : String) (children : List Node)
    (h : listLast children = none) :
    drillDown key offset (.element k tag children) = Range.collapsed key offset := by
  rw [drillDown]
  split
  · rfl
  · rename_i heq; rw [h] at heq; cases heq
  · rename_i heq; rw [h] at heq; cases heq

theorem drillDown_element_text (key offset k lk : Nat) (tag ls : String) (children : List Node)
    (lc : Option Composition) (h : listLast children = some (.text lk ls lc)) :
    drillDown key offset (.element k tag children) = Range.collapsed lk ls.length := by
  rw [drillDown]
  split
  · rename_i heq; rw [h] at heq; cases heq
  · rename_i heq; rw [h] at heq; injection heq with heq2; injection heq2; subst_vars; rfl
  · rename_i heq; rw [h] at heq; injection heq with heq2; cases heq2

theorem drillDown_element_element (key offset k lk : Nat) (tag ltag : String)
    (children lch : List Node) (h : listLast children = some (.element lk ltag lch)) :
    drillDown key offset (.element k tag children)
      = drillDown k children.length (.element lk ltag lch) := by
  rw [drillDown]
  split
  · rename_i heq; rw [h] at heq; cases heq
  · rename_i heq; rw [h] at heq; injection heq with heq2; cases heq2
  · rename_i heq; rw [h] at heq; injection heq with heq2; injection heq2; subst_vars; rfl

theorem drillDown_of_lastTextOfChain :
    ∀ (n : Node) (key offset tk : Nat) (ts : String) (tc : Option Composition),
    n.isElement = true → lastTextOfChain n = some (.text tk ts tc) →
    drillDown key offset n = Range.collapsed tk ts.length
  | .text _ _ _, _key, _offset, _tk, _ts, _tc => by
    intro he
    simp [Node.isElement] at he
  | .element k tag children, key, offset, tk, ts, tc => by
    intro _ hl
    rw [lastTextOfChain] at hl
    split at hl
    · cases hl
    · rename_i l h
      cases l with
      | text lk ls lc =>
        rw [lastTextOfChain] at hl
        injection hl with hl2
        injection hl2
        subst_vars
        exact drillDown_element_text key offset k lk tag ls children lc h
      | element lk ltag lch =>
        rw [drillDown_element_element key offset k lk tag ltag children lch h]
        exact drillDown_of_lastTextOfChain (.element lk ltag lch) k children.length tk ts tc
          rfl hl
termination_by n => sizeOf n
decreasing_by
  have hm := listLast_mem h
  have hs := List.sizeOf_lt_of_mem hm
  simp only [Node.element.sizeOf_spec] at hs ⊢
  omega

theorem drillChain_element_last_none (k : Nat) (tag : String) (children : List Node)
    (h : listLast children = none) :
    drillChain (.element k tag children) = [.element k tag children] := by
  rw [drillChain]
  congr 1
  split
  · rfl
  · rename_i heq; rw [h] at heq
  · rename_i heq; rw [h] at heq; cases heq

theorem drillChain_element_last_element (k lk : Nat) (tag ltag : String)
    (children lch : List Node) (h : listLast children = some (.element lk ltag lch)) :
    drillChain (.element k tag children)
      = .element k tag children :: drillChain (.element lk ltag lch) := by
  rw [drillChain]
  congr 1
  split
  · rename_i heq; rw [h] at heq; cases heq
  · rename_i heq; rw [h] at heq; injection heq with heq2; cases heq2
  · rename_i heq; rw [h] at heq; injection heq with heq2; injection heq2; subst_vars; rfl

theorem drillChain_element_ne_nil (k : Nat) (tag : String) (children : List Node) :
    drillChain (.element k tag children) ≠ [] := by
  rw [drillChain]
  simp

theorem lastTextOfChain_element_some (k : Nat) (tag : String) (children : List Node)
    (l : Node) (h : listLast children = some l) :
    lastTextOfChain (.element k tag children) = lastTextOfChain l := by
  rw [lastTextOfChain]
  split
  · rename_i heq; rw [h] at heq; cases heq
  · rename_i heq; rw [h] at heq; injection heq with heq2; subst_vars; rfl

theorem drillDown_break_chain :
    ∀ (n : Node) (key offset : Nat),
    n.isElement = true → lastTextOfChain n = none →
    (drillChain n = [n] → drillDown key offset n = Range.collapsed key offset) ∧
    (∀ (pre : List Node) (prev brk : Node), drillChain n = pre ++ [prev, brk] →
      Node.last brk = none ∧
      drillDown key offset n = Range.collapsed prev.getKey prev.getChildrenSize)
  | .text _ _ _, _key, _offset => by
    intro he
    simp [Node.isElement] at he
  | .element k tag children, key, offset => by
    intro _ hbreak
    cases hl : listLast children with
    | none =>
      constructor
      · intro _
        exact drillDown_element_none key offset k tag children hl
      · intro pre prev brk hch
        rw [drillChain_element_last_none k tag children hl] at hch
        have hlen := congrArg List.length hch
        simp [List.length_append] at hlen
    | some l =>
      cases l with
      | text lk ls lc =>
        rw [lastTextOfChain_element_some k tag children _ hl] at hbreak
        rw [lastTextOfChain] at hbreak
        cases hbreak
      | element lk ltag lch =>
        have hte : lastTextOfChain (.element lk ltag lch) = none := by
          rw [lastTextOfChain_element_some k tag children _ hl] at hbreak
          exact hbreak
        constructor
        · intro hch
          rw [drillChain_element_last_element k lk tag ltag children lch hl] at hch
          injection hch with h1 h2
          exact absurd h2 (drillChain_element_ne_nil lk ltag lch)
        · intro pre prev brk hch
          rw [drillChain_element_last_element k lk tag ltag children lch hl] at hch
          rw [drillDown_element_element key offset k lk tag ltag children lch hl]
          cases pre with
          | nil =>
            simp only [List.nil_append] at hch
            injection hch with h1 h2
            cases hll : listLast lch with
            | none =>
              rw [drillChain_element_last_none lk ltag lch hll] at h2
              injection h2 with h3 _
              subst h1
              constructor
              · rw [← h3]
                simp [Node.last, hll]
              · rw [drillDown_element_none k children.length lk ltag lch hll]
                rfl
            | some l2 =>
              cases l2 with
              | text l2k l2s l2c =>
                rw [lastTextOfChain_element_some lk ltag lch _ hll] at hte
                rw [lastTextOfChain] at hte
                cases hte
              | element l2k l2t l2ch =>
                rw [drillChain_element_last_element lk l2k ltag l2t lch l2ch hll] at h2
                injection h2 with _ h4
                exact absurd h4 (drillChain_element_ne_nil l2k l2t l2ch)
          | cons p pre2 =>
            simp only [List.cons_append] at hch
            injection hch with h1 h2
            exact (drillDown_break_chain (.element lk ltag lch) k children.length rfl hte).2
              pre2 prev brk h2
termination_by n _ _ => sizeOf n
decreasing_by
  have hm := listLast_mem hl
  have hs := List.sizeOf_lt_of_mem hm
  simp only [Node.element.sizeOf_spec] at hs ⊢
  omega

theorem drillDownVisits_le : ∀ (n : Node), drillDownVisits n ≤ Node.depth n + 1
  | .text _ _ _ => by simp [drillDownVisits]
  | .element k tag children => by
    rw [drillDownVisits]
    split
    · omega
    · omega
    · rename_i lk ltag lch h
      have h1 := drillDownVisits_le (.element lk ltag lch)
      have h2 := depth_succ_le_of_mem (listLast_mem h)
      simp only [Node.depth]
      omega
termination_by n => sizeOf n
decreasing_by
  rename_i h
  have hm := listLast_mem h
  have hs := List.sizeOf_lt_of_mem hm
  simp only [Node.element.sizeOf_spec] at hs ⊢
  omega

/-! Claim theorems. -/

/-- C1, counterexample: inserting `{type:"x", children:[{type:"y", children:[]}]}`
into Element 100 constructs Element 200 whose last child, Element 201, has no
last child and child count 0; the claim prescribes the collapsed Range
(201, 0), but `createRangefromOp` returns (200, 1) — the key and child count
of the parent of the Element whose last child was missing. -/
theorem insertNode_missingLastChild_counterexample :
    (createNode (.element "x" [.element "y" []]) 200).1
      = some (.element 200 "x" [.element 201 "y" []]) ∧
    Node.last (.element 201 "y" []) = none ∧
    Node.getChildrenSize (.element 201 "y" []) = 0 ∧
    createRangefromOp 200
        (.insertNode (some (.element 100 "root" [])) 0 (.element "x" [.element "y" []]))
      = .ok (some (Range.collapsed 200 1)) ∧
    Range.collapsed 200 1 ≠ Range.collapsed 201 0 := by
  refine ⟨rfl, rfl, rfl, ?_, by decide⟩
  simp only [createRangefromOp, Op.node, createRangefromOpAux, Op.offset, Node.getKey]
  have hc : (createNode (.element "x" [.element "y" []]) 200).1
      = some (.element 200 "x" [.element 201 "y" []]) := rfl
  simp only [hc]
  rw [drillDown_element_element 100 0 200 201 "x" "y" [.element 201 "y" []] [] rfl]
  rw [drillDown_element_none 200 ([Node.element 201 "y" []]).length 201 "y" [] rfl]
  rfl

/-- C1, amended: for an InsertNode on an Element target whose value constructs
an Element subtree on which the drill-down ends with a missing last child
(`lastTextOfChain` is `none`), the loop breaks before updating its key/offset
accumulators. So if the break happens at the very first visited Element (the
constructed root, `drillChain = [root]`), `createRangefromOp` returns a
collapsed Range at the operation's original (targetKey, offset); and if the
break happens at any later Element `brk` of the visited chain — `brk` being
the Element whose last child is missing — it returns a collapsed Range at the
previously visited Element's (key, childrenSize), at whatever depth the break
occurs. -/
theorem insertNode_missingLastChild_falls_back_to_previous
    (nextKey targetKey o : Nat) (targetTag : String) (targetChildren : List Node)
    (v : Value) (ck : Nat) (ctag : String) (cch : List Node)
    (hc : (createNode v nextKey).1 = some (.element ck ctag cch))
    (hbreak : lastTextOfChain (.element ck ctag cch) = none) :
    (drillChain (.element ck ctag cch) = [.element ck ctag cch] →
      createRangefromOp nextKey
          (.insertNode (some (.element targetKey targetTag targetChildren)) o v)
        = .ok (some (Range.collapsed targetKey o))) ∧
    (∀ (pre : List Node) (prev brk : Node),
      drillChain (.element ck ctag cch) = pre ++ [prev, brk] →
      Node.last brk = none ∧
      createRangefromOp nextKey
          (.insertNode (some (.element targetKey targetTag targetChildren)) o v)
        = .ok (some (Range.collapsed prev.getKey prev.getChildrenSize))) := by
  have hmain := drillDown_break_chain (.element ck ctag cch) targetKey o rfl hbreak
  constructor
  · intro hch
    simp only [createRangefromOp, Op.node, createRangefromOpAux, Op.offset, Node.getKey, hc]
    rw [hmain.1 hch]
  · intro pre prev brk hch
    obtain ⟨hlast, heq⟩ := hmain.2 pre prev brk hch
    refine ⟨hlast, ?_⟩
    simp only [createRangefromOp, Op.node, createRangefromOpAux, Op.offset, Node.getKey, hc]
    rw [heq]
    rfl

/-- C1, witness for the amended theorem: a constructed root Element with no
children falls back to the operation's original (100, 7); and for the depth-2
value `{type:"a", children:[{type:"b", children:[{type:"c", children:[]}]}]}`
the break happens at Element "c" (key 202, the third visited Element, last
child missing), and the Range falls back to (201, 1) — the key and child
count of the previously visited Element "b". -/
theorem insertNode_missingLastChild_falls_back_to_previous_witness :
    (createRangefromOp 200 (.insertNode (some (.element 100 "root" [])) 7 (.element "x" []))
      = .ok (some (Range.collapsed 100 7))) ∧
    (Node.last (.element 202 "c" []) = none ∧
      createRangefromOp 200 (.insertNode (some (.element 100 "root" [])) 0
          (.element "a" [.element "b" [.element "c" []]]))
        = .ok (some (Range.collapsed 201 1))) :=
  ⟨(insertNode_missingLastChild_falls_back_to_previous 200 100 7 "root" []
      (.element "x" []) 200 "x" [] rfl
      (by simp [lastTextOfChain, listLast])).1
      (by simp [drillChain, listLast]),
   (insertNode_missingLastChild_falls_back_to_previous 200 100 0 "root" []
      (.element "a" [.element "b" [.element "c" []]])
      200 "a" [.element 201 "b" [.element 202 "c" []]] rfl
      (by simp [lastTextOfChain, listLast])).2
     [.element 200 "a" [.element 201 "b" [.element 202 "c" []]]]
     (.element 201 "b" [.element 202 "c" []]) (.element 202 "c" [])
     (by simp [drillChain, listLast])⟩

/-- C2: at JavaScript runtime semantics, an InsertNode operation whose target
node reference is absent fails at line 8 (`node.getKey()` on `undefined`)
with a generic `TypeError` — before the `if(!node) Log.nodeNotFound(key)`
guard of line 29 is ever reached — so no Range is derived, but the failure is
not the NodeNotFound failure tagged with the missing key that the claim and
spec require. -/
theorem insertNode_absentNode_typeError :
    createRangefromOp 0 (.insertNode none 0 (.element "paragraph" [.text "Hi"]))
      = .error .typeError ∧
    ∀ k : Nat, (Err.typeError : Err) ≠ Err.nodeNotFound k :=
  ⟨rfl, fun _ h => Err.noConfusion h⟩

/-- C3: for every InsertNode operation on an Element target whose value
constructs a subtree whose last-child chain ends in a Text node (including
the constructed subtree being itself a Text node), `createRangefromOp`
returns a collapsed Range at (that Text node's key, length of its text). -/
theorem insertNode_range_at_deepest_text (nextKey targetKey o tk : Nat)
    (targetTag ts : String) (targetChildren : List Node) (tc : Option Composition)
    (v : Value) (child : Node)
    (hc : (createNode v nextKey).1 = some child)
    (hl : lastTextOfChain child = some (.text tk ts tc)) :
    createRangefromOp nextKey
        (.insertNode (some (.element targetKey targetTag targetChildren)) o v)
      = .ok (some (Range.collapsed tk ts.length)) := by
  simp only [createRangefromOp, Op.node, createRangefromOpAux, Op.offset, Node.getKey, hc]
  cases child with
  | text ck cs cc =>
    rw [lastTextOfChain] at hl
    injection hl with hl2
    injection hl2
    subst_vars
    rfl
  | element ck ctag cch =>
    simp only [hc]
    rw [drillDown_of_lastTextOfChain (.element ck ctag cch) targetKey o tk ts tc rfl hl]

/-- C3, witness (Scenario B): inserting
`{type:"paragraph", children:[{text:"Hi"}]}` into the childless Element 100
creates the Text node keyed 201 holding "Hi", and the Range collapses at
(201, 2). -/
theorem insertNode_range_at_deepest_text_witness :
    createRangefromOp 200 (.insertNode (some (.element 100 "root" [])) 0
      (.element "paragraph" [.text "Hi"])) = .ok (some (Range.collapsed 201 2)) :=
  insertNode_range_at_deepest_text 200 100 0 201 "root" "Hi" [] none
    (.element "paragraph" [.text "Hi"]) (.element 200 "paragraph" [.text 201 "Hi" none])
    rfl (by simp [lastTextOfChain, listLast])

/-- C4: for every InsertNode operation whose value constructs an Element
subtree, `createRangefromOp` computes its result through the (terminating)
drill-down loop, and the loop visits at most depth + 1 nodes of the
constructed subtree. -/
theorem insertNode_drillDown_visits_bound (nextKey targetKey o : Nat)
    (targetTag : String) (targetChildren : List Node) (v : Value)
    (ck : Nat) (ctag : String) (cch : List Node)
    (hc : (createNode v nextKey).1 = some (.element ck ctag cch)) :
    createRangefromOp nextKey
        (.insertNode (some (.element targetKey targetTag targetChildren)) o v)
      = .ok (some (drillDown targetKey o (.element ck ctag cch))) ∧
    drillDownVisits (.element ck ctag cch) ≤ Node.depth (.element ck ctag cch) + 1 := by
  constructor
  · simp only [createRangefromOp, Op.node, createRangefromOpAux, Op.offset, Node.getKey, hc]
  · exact drillDownVisits_le (.element ck ctag cch)

/-- C4, witness: the subtree constructed from
`{type:"x", children:[{type:"y", children:[]}]}` has depth 1 and the
drill-down visits 2 of its nodes. -/
theorem insertNode_drillDown_visits_bound_witness :
    createRangefromOp 200
        (.insertNode (some (.element 100 "root" [])) 7 (.element "x" [.element "y" []]))
      = .ok (some (drillDown 100 7 (.element 200 "x" [.element 201 "y" []]))) ∧
    drillDownVisits (.element 200 "x" [.element 201 "y" []])
      ≤ Node.depth (.element 200 "x" [.element 201 "y" []]) + 1 :=
  insertNode_drillDown_visits_bound 200 100 7 "root" [] (.element "x" [.element "y" []])
    200 "x" [.element 201 "y" []] rfl

/-- C5: for every UpdateData operation on a Text node with an active
Composition, `createRangefromOp` returns a collapsed Range at
(key, composition.offset + length(composition.text)); in particular
Composition {text:"ni", offset:3} yields the collapsed Range (key, 5). -/
theorem updateData_composition_range :
    (∀ (nextKey k o : Nat) (s : String) (c : Composition),
      createRangefromOp nextKey (.updateData (some (.text k s (some c))) o)
        = .ok (some (Range.collapsed k (c.offset + c.text.length)))) ∧
    createRangefromOp 0 (.updateData (some (.text 7 "nihao" (some ⟨"ni", 3⟩))) 9)
      = .ok (some (Range.collapsed 7 5)) :=
  ⟨fun _ _ _ _ _ => rfl, rfl⟩

/-- C6: for every UpdateFormat operation targeting a Text node whose text has
length L, `createRangefromOp` returns the Range (key, 0) to (key, L),
selecting the node's entire text span. -/
theorem updateFormat_selects_whole_span (nextKey k o : Nat) (s : String)
    (c : Option Composition) :
    createRangefromOp nextKey (.updateFormat (some (.text k s c)) o)
      = .ok (some ⟨k, 0, k, s.length⟩) := rfl

/-- C7: for every InsertText operation with target node, offset and inserted
string value, `createRangefromOp` returns a collapsed Range at
(key, offset + length(value)). -/
theorem insertText_caret_after_inserted (nextKey o : Nat) (n : Node) (v : String) :
    createRangefromOp nextKey (.insertText (some n) o v)
      = .ok (some (Range.collapsed n.getKey (o + v.length))) := rfl

/-- C8: for every DeleteText operation with target node and offset,
`createRangefromOp` returns a collapsed Range at (key, offset). -/
theorem deleteText_caret_at_deletion_point (nextKey o : Nat) (n : Node) :
    createRangefromOp nextKey (.deleteText (some n) o)
      = .ok (some (Range.collapsed n.getKey o)) := rfl

/-- C9: for every UpdateData operation on a Text node with no active
Composition, `createRangefromOp` produces no Range at all (`.ok none`), a
result distinguishable both from every error and from every produced Range
(in particular from the generic fallback Range). -/
theorem updateData_without_composition_no_range (nextKey k o : Nat) (s : String) :
    createRangefromOp nextKey (.updateData (some (.text k s none)) o) = .ok none ∧
    (∀ r : Range, (Except.ok none : Except Err (Option Range)) ≠ .ok (some r)) ∧
    (∀ e : Err, (Except.ok none : Except Err (Option Range)) ≠ .error e) :=
  ⟨rfl, fun _ h => Option.noConfusion (Except.ok.inj h), fun _ h => Except.noConfusion h⟩

/-- C10: UpdateFormat and UpdateData on an Element target, and InsertNode on
a Text target, raise no error and return the generic fallback collapsed
Range at (target node's key, op.offset). -/
theorem nonmatching_node_kind_fallback_range (nextKey k o tk : Nat) (tag s : String)
    (children : List Node) (c : Option Composition) (v : Value) :
    createRangefromOp nextKey (.updateFormat (some (.element k tag children)) o)
      = .ok (some (Range.collapsed k o)) ∧
    createRangefromOp nextKey (.updateData (some (.element k tag children)) o)
      = .ok (some (Range.collapsed k o)) ∧
    createRangefromOp nextKey (.insertNode (some (.text tk s c)) o v)
      = .ok (some (Range.collapsed tk o)) :=
  ⟨rfl, rfl, rfl⟩

end Editable
